import Mathlib

/-
  Verification development for the OptimusDB catalog adapter
  (metadata_service/proxy/optimusdb_proxy.py and
  search_service/proxy/optimusdb_search.py).

  The development shallowly embeds the response-normalization core, the
  URI codec, the entity mapper and the search ranker.  Python dictionaries
  are modelled as association lists in insertion order, JSON values as the
  inductive type `Json` below, and the Python `json` module as the
  executable pair `dumps` / `loads`, used by the embedded code only
  through its round-trip behaviour (proved below as `loads_dumps`).
  Numbers are modelled as integers; float payloads are outside the model.
-/

/-- JSON values, the dynamic value universe of the backend records.
Numbers are modelled as integers. -/
inductive Json : Type where
  | null : Json
  | bool : Bool → Json
  | num : Int → Json
  | str : String → Json
  | arr : List Json → Json
  | obj : List (String × Json) → Json

/-- Escape the two characters that the serializer protects, backslash and
the double quote, with a leading backslash. -/
def escapeChars : List Char → List Char
  | [] => []
  | c :: cs => if c = '"' ∨ c = '\\' then '\\' :: c :: escapeChars cs else c :: escapeChars cs

/-- The decimal digit character for a value below ten. -/
def digitChar (k : Nat) : Char :=
  if k = 1 then '1' else if k = 2 then '2' else if k = 3 then '3'
  else if k = 4 then '4' else if k = 5 then '5' else if k = 6 then '6'
  else if k = 7 then '7' else if k = 8 then '8' else if k = 9 then '9' else '0'

/-- Decimal digits of a natural number, most significant first. -/
def natChars (n : Nat) : List Char :=
  if _h : n < 10 then [digitChar n]
  else natChars (n / 10) ++ [digitChar (n % 10)]
decreasing_by exact Nat.div_lt_self (by omega) (by omega)

/-- Decimal rendering of an integer. -/
def intChars (n : Int) : List Char :=
  if n < 0 then '-' :: natChars (-n).toNat else natChars n.toNat

mutual

/-- Serialize a JSON value to text (compact separators). -/
def emit : Json → List Char
  | .num n => intChars n
  | .str s => '"' :: (escapeChars s.data ++ ['"'])
  | .arr xs => '[' :: (emitElems xs ++ [']'])
  | .obj ms => '{' :: (emitMembers ms ++ ['}'])
  | .bool b => if b then ['t', 'r', 'u', 'e'] else ['f', 'a', 'l', 's', 'e']
  | .null => ['n', 'u', 'l', 'l']

/-- Comma-separated serialization of array elements. -/
def emitElems : List Json → List Char
  | [] => []
  | [x] => emit x
  | x :: y :: xs => emit x ++ ',' :: emitElems (y :: xs)

/-- Comma-separated serialization of object members. -/
def emitMembers : List (String × Json) → List Char
  | [] => []
  | [(k, v)] => '"' :: escapeChars k.data ++ '"' :: ':' :: emit v
  | (k, v) :: m :: ms =>
      '"' :: escapeChars k.data ++ '"' :: ':' :: emit v ++ ',' :: emitMembers (m :: ms)

end

/-- Model of `json.dumps`: JSON text of a value. -/
def dumps (j : Json) : String := String.mk (emit j)

/-- Parse the body of a JSON string literal (opening quote consumed),
returning the decoded characters and the input after the closing quote. -/
def parseStrChars : List Char → Option (List Char × List Char)
  | [] => none
  | '"' :: rest => some ([], rest)
  | '\\' :: c :: rest => (parseStrChars rest).map (fun p => (c :: p.1, p.2))
  | c :: rest => (parseStrChars rest).map (fun p => (c :: p.1, p.2))

/-- Split a maximal run of decimal digits off the front of the input. -/
def takeDigits : List Char → List Char × List Char
  | [] => ([], [])
  | c :: cs =>
    if !c.isDigit then ([], c :: cs)
    else
      let tail := takeDigits cs
      (c :: tail.1, tail.2)

/-- Numeric value of a digit character. -/
def digitVal (c : Char) : Nat := c.toNat - 48

/-- Numeric value of a digit run, most significant first. -/
def digitsVal (ds : List Char) : Nat := ds.foldl (fun a c => 10 * a + digitVal c) 0

/-- Parse a nonempty run of digits into a natural number. -/
def parseNat (cs : List Char) : Option (Nat × List Char) :=
  let p := takeDigits cs
  if p.1.isEmpty then none else some (digitsVal p.1, p.2)

mutual

/-- Fuel-indexed recursive-descent parser for one JSON value. -/
def parseVal : Nat → List Char → Option (Json × List Char)
  | 0, _ => none
  | fuel + 1, cs =>
    match cs with
    | [] => none
    | c :: rest =>
      if c = 'n' then
        match rest with
        | 'u' :: 'l' :: 'l' :: r => some (.null, r)
        | _ => none
      else if c = 't' then
        match rest with
        | 'r' :: 'u' :: 'e' :: r => some (.bool true, r)
        | _ => none
      else if c = 'f' then
        match rest with
        | 'a' :: 'l' :: 's' :: 'e' :: r => some (.bool false, r)
        | _ => none
      else if c = '"' then
        (parseStrChars rest).map (fun p => (.str (String.mk p.1), p.2))
      else if c = '[' then
        match rest with
        | ']' :: r => some (.arr [], r)
        | _ => (parseElems fuel rest).map (fun p => (.arr p.1, p.2))
      else if c = '{' then
        match rest with
        | '}' :: r => some (.obj [], r)
        | _ => (parseMembers fuel rest).map (fun p => (.obj p.1, p.2))
      else if c = '-' then
        (parseNat rest).map (fun p => (.num (-(p.1 : Int)), p.2))
      else if c.isDigit then
        (parseNat (c :: rest)).map (fun p => (.num (p.1 : Int), p.2))
      else none

/-- Parse the elements of a nonempty array up to the closing bracket. -/
def parseElems : Nat → List Char → Option (List Json × List Char)
  | 0, _ => none
  | fuel + 1, cs =>
    match parseVal fuel cs with
    | none => none
    | some (v, rest) =>
      match rest with
      | ',' :: rest2 => (parseElems fuel rest2).map (fun p => (v :: p.1, p.2))
      | ']' :: rest2 => some ([v], rest2)
      | _ => none

/-- Parse the members of a nonempty object up to the closing brace. -/
def parseMembers : Nat → List Char → Option (List (String × Json) × List Char)
  | 0, _ => none
  | fuel + 1, cs =>
    match cs with
    | '"' :: cs2 =>
      match parseStrChars cs2 with
      | none => none
      | some (k, rest) =>
        match rest with
        | ':' :: rest2 =>
          match parseVal fuel rest2 with
          | none => none
          | some (v, rest3) =>
            match rest3 with
            | ',' :: rest4 => (parseMembers fuel rest4).map (fun p => ((String.mk k, v) :: p.1, p.2))
            | '}' :: rest4 => some ([(String.mk k, v)], rest4)
            | _ => none
        | _ => none
    | _ => none

end

/-- Model of `json.loads`: parse JSON text, requiring full consumption,
and return `none` where the Python call would raise `JSONDecodeError`. -/
def loads (s : String) : Option Json :=
  match parseVal (s.data.length + 1) s.data with
  | some (v, []) => some v
  | _ => none

/-- `digitChar` always produces a decimal digit character. -/
theorem digitChar_isDigit (k : Nat) : (digitChar k).isDigit = true := by
  unfold digitChar
  split_ifs <;> decide

/-- `digitVal` inverts `digitChar` below ten. -/
theorem digitVal_digitChar (k : Nat) (h : k < 10) : digitVal (digitChar k) = k := by
  interval_cases k <;> decide

/-- Decimal renderings are never empty. -/
theorem natChars_ne_nil (n : Nat) : natChars n ≠ [] := by
  rw [natChars]
  split_ifs <;> simp

/-- Every character of a decimal rendering is a digit. -/
theorem natChars_digits (n : Nat) : ∀ c ∈ natChars n, c.isDigit = true := by
  induction n using Nat.strong_induction_on with
  | _ n ih =>
    rw [natChars]
    split_ifs with h
    · intro c hc
      rw [List.mem_singleton] at hc
      subst hc
      exact digitChar_isDigit n
    · intro c hc
      rw [List.mem_append] at hc
      rcases hc with hc | hc
      · exact ih (n / 10) (Nat.div_lt_self (by omega) (by omega)) c hc
      · rw [List.mem_singleton] at hc
        subst hc
        exact digitChar_isDigit (n % 10)

/-- Folding the digit-accumulation step over a decimal rendering. -/
theorem digitsVal_fold (n : Nat) :
    ∀ a, (natChars n).foldl (fun a c => 10 * a + digitVal c) a =
      a * 10 ^ (natChars n).length + n := by
  induction n using Nat.strong_induction_on with
  | _ n ih =>
    intro a
    rw [natChars]
    split_ifs with h
    · simp [digitVal_digitChar n h]
      omega
    · rw [List.foldl_append, ih (n / 10) (Nat.div_lt_self (by omega) (by omega)) a]
      simp [digitVal_digitChar (n % 10) (by omega)]
      rw [pow_succ]
      have hn : 10 * (n / 10) + n % 10 = n := Nat.div_add_mod n 10
      ring_nf
      omega

/-- The digit fold inverts the decimal rendering. -/
theorem digitsVal_natChars (n : Nat) : digitsVal (natChars n) = n := by
  simpa [digitsVal] using digitsVal_fold n 0

/-- Whether the input starts with a decimal digit. -/
def headDigit : List Char → Bool
  | [] => false
  | c :: _ => c.isDigit

/-- `takeDigits` consumes exactly a digit run followed by a non-digit head. -/
theorem takeDigits_append (ds rest : List Char) (hds : ∀ c ∈ ds, c.isDigit = true)
    (hrest : headDigit rest = false) : takeDigits (ds ++ rest) = (ds, rest) := by
  induction ds with
  | nil =>
    cases rest with
    | nil => rfl
    | cons c cs =>
      have hc : c.isDigit = false := by simpa [headDigit] using hrest
      simp [takeDigits, hc]
  | cons c cs ih =>
    have hih := ih (fun x hx => hds x (List.mem_cons_of_mem c hx))
    simp [takeDigits, hds c (List.mem_cons_self c cs), hih]

/-- `parseNat` inverts the decimal rendering of a natural number. -/
theorem parseNat_natChars (n : Nat) (rest : List Char) (hrest : headDigit rest = false) :
    parseNat (natChars n ++ rest) = some (n, rest) := by
  unfold parseNat
  rw [takeDigits_append (natChars n) rest (natChars_digits n) hrest]
  simp [List.isEmpty_iff, natChars_ne_nil n, digitsVal_natChars n]

/-- The string parser inverts the escaping serializer. -/
theorem parseStrChars_escape (cs rest : List Char) :
    parseStrChars (escapeChars cs ++ '"' :: rest) = some (cs, rest) := by
  induction cs with
  | nil => simp [escapeChars, parseStrChars]
  | cons c cs ih =>
    by_cases hc : c = '"' ∨ c = '\\'
    · simp only [escapeChars, if_pos hc, List.cons_append]
      simp [parseStrChars, ih]
    · push_neg at hc
      simp only [escapeChars, if_neg (by tauto : ¬(c = '"' ∨ c = '\\')), List.cons_append]
      rw [parseStrChars]
      · simp [ih]
      · exact fun h => hc.1 h
      · intro c2 rest2 h
        cases h
        exact absurd rfl hc.2

/-- Rebuilding a string from its characters is the identity. -/
theorem string_mk_data (s : String) : String.mk s.data = s := rfl

/-- A digit character is none of the parser dispatch characters. -/
theorem digit_ne_special {c : Char} (h : c.isDigit = true) :
    c ≠ 'n' ∧ c ≠ 't' ∧ c ≠ 'f' ∧ c ≠ '"' ∧ c ≠ '[' ∧ c ≠ '{' ∧ c ≠ '-' ∧
      c ≠ ']' ∧ c ≠ '}' ∧ c ≠ ',' := by
  refine ⟨?_, ?_, ?_, ?_, ?_, ?_, ?_, ?_, ?_, ?_⟩ <;>
    exact fun he => by rw [he] at h; exact absurd h (by decide)

/-- The serialization of a value starts with a dispatch character, never a
closing bracket, closing brace or comma. -/
theorem emit_head (j : Json) :
    ∃ c cs, emit j = c :: cs ∧ c ≠ ']' ∧ c ≠ '}' ∧ c ≠ ',' := by
  cases j with
  | null => exact ⟨'n', _, rfl, by decide, by decide, by decide⟩
  | bool b =>
    cases b with
    | false => exact ⟨'f', _, rfl, by decide, by decide, by decide⟩
    | true => exact ⟨'t', _, rfl, by decide, by decide, by decide⟩
  | num n =>
    rw [show emit (.num n) = intChars n from rfl]
    unfold intChars
    split_ifs with hneg
    · exact ⟨'-', _, rfl, by decide, by decide, by decide⟩
    · rcases hne : natChars n.toNat with _ | ⟨c, cs⟩
      · exact absurd hne (natChars_ne_nil _)
      · have hd : c.isDigit = true := natChars_digits n.toNat c (by rw [hne]; exact List.mem_cons_self c cs)
        obtain ⟨_, _, _, _, _, _, _, h8, h9, h10⟩ := digit_ne_special hd
        exact ⟨c, cs, rfl, h8, h9, h10⟩
  | str s => exact ⟨'"', _, rfl, by decide, by decide, by decide⟩
  | arr xs => exact ⟨'[', _, rfl, by decide, by decide, by decide⟩
  | obj ms => exact ⟨'{', _, rfl, by decide, by decide, by decide⟩

/-- A nonempty element list serializes to its head followed by a tail. -/
theorem emitElems_cons (x : Json) (l : List Json) :
    ∃ t, emitElems (x :: l) = emit x ++ t := by
  cases l with
  | nil => exact ⟨[], by simp [emitElems]⟩
  | cons y ys => exact ⟨',' :: emitElems (y :: ys), by simp [emitElems]⟩

/-- Parser dispatch on an opening bracket not immediately closed. -/
theorem parseVal_bracket (f : Nat) (c : Char) (cs : List Char) (hne : c ≠ ']') :
    parseVal (f + 1) ('[' :: c :: cs) =
      (parseElems f (c :: cs)).map (fun p => (Json.arr p.1, p.2)) := by
  show (match c :: cs with
    | ']' :: r => some (Json.arr [], r)
    | _ => (parseElems f (c :: cs)).map (fun p => (Json.arr p.1, p.2))) =
    (parseElems f (c :: cs)).map (fun p => (Json.arr p.1, p.2))
  split
  · rename_i r heq
    exact absurd (List.cons.inj heq).1 hne
  · rfl

/-- Parser dispatch on an opening brace not immediately closed. -/
theorem parseVal_brace (f : Nat) (c : Char) (cs : List Char) (hne : c ≠ '}') :
    parseVal (f + 1) ('{' :: c :: cs) =
      (parseMembers f (c :: cs)).map (fun p => (Json.obj p.1, p.2)) := by
  show (match c :: cs with
    | '}' :: r => some (Json.obj [], r)
    | _ => (parseMembers f (c :: cs)).map (fun p => (Json.obj p.1, p.2))) =
    (parseMembers f (c :: cs)).map (fun p => (Json.obj p.1, p.2))
  split
  · rename_i r heq
    exact absurd (List.cons.inj heq).1 hne
  · rfl

/-- Parser dispatch on a leading digit. -/
theorem parseVal_digit (f : Nat) (c : Char) (cs : List Char) (hd : c.isDigit = true) :
    parseVal (f + 1) (c :: cs) =
      (parseNat (c :: cs)).map (fun p => (Json.num (p.1 : Int), p.2)) := by
  obtain ⟨h1, h2, h3, h4, h5, h6, h7, _, _, _⟩ := digit_ne_special hd
  simp [parseVal, h1, h2, h3, h4, h5, h6, h7, hd]

/-- The parser inverts the serializer: with enough fuel, parsing a
serialized value consumes exactly its text and returns the value. -/
theorem parse_emit (fuel : Nat) :
    (∀ j rest, (emit j).length < fuel → headDigit rest = false →
      parseVal fuel (emit j ++ rest) = some (j, rest)) ∧
    (∀ xs rest, xs ≠ [] → (emitElems xs).length + 1 < fuel →
      parseElems fuel (emitElems xs ++ ']' :: rest) = some (xs, rest)) ∧
    (∀ ms rest, ms ≠ [] → (emitMembers ms).length + 1 < fuel →
      parseMembers fuel (emitMembers ms ++ '}' :: rest) = some (ms, rest)) := by
  induction fuel with
  | zero =>
    exact ⟨fun j rest h _ => absurd h (by omega), fun xs rest _ h => absurd h (by omega),
      fun ms rest _ h => absurd h (by omega)⟩
  | succ f ih =>
    obtain ⟨ihV, ihE, ihM⟩ := ih
    refine ⟨?_, ?_, ?_⟩
    · intro j rest hlen hrest
      cases j with
      | null => simp [emit, parseVal]
      | bool b =>
        cases b with
        | false => simp [emit, parseVal]
        | true => simp [emit, parseVal]
      | num n =>
        by_cases hneg : n < 0
        · have hemit : emit (.num n) = '-' :: natChars (-n).toNat := by
            simp [emit, intChars, hneg]
          rw [hemit]
          simp only [List.cons_append]
          simp [parseVal, parseNat_natChars _ _ hrest]
          omega
        · have hemit : emit (.num n) = natChars n.toNat := by
            simp [emit, intChars, hneg]
          rcases hnc : natChars n.toNat with _ | ⟨c, cs⟩
          · exact absurd hnc (natChars_ne_nil _)
          · have hd : c.isDigit = true :=
              natChars_digits _ c (by rw [hnc]; exact List.mem_cons_self c cs)
            rw [hemit, hnc]
            simp only [List.cons_append]
            rw [parseVal_digit f c (cs ++ rest) hd]
            have hback : c :: (cs ++ rest) = natChars n.toNat ++ rest := by
              rw [hnc]; simp
            rw [hback, parseNat_natChars _ _ hrest]
            simp
            omega
      | str s =>
        have hemit : emit (.str s) ++ rest = '"' :: (escapeChars s.data ++ '"' :: rest) := by
          simp [emit]
        rw [hemit]
        simp [parseVal, parseStrChars_escape, string_mk_data]
      | arr xs =>
        cases xs with
        | nil => simp [emit, emitElems, parseVal]
        | cons x xs2 =>
          have harr : emit (.arr (x :: xs2)) ++ rest =
              '[' :: (emitElems (x :: xs2) ++ ']' :: rest) := by
            simp [emit]
          rw [harr]
          obtain ⟨t, ht⟩ := emitElems_cons x xs2
          obtain ⟨c, cs, hcx, hc1, _, _⟩ := emit_head x
          have hscr : emitElems (x :: xs2) ++ ']' :: rest = c :: (cs ++ (t ++ ']' :: rest)) := by
            rw [ht, hcx]; simp
          rw [hscr, parseVal_bracket f c _ hc1, ← hscr]
          have hlen2 : (emitElems (x :: xs2)).length + 1 < f := by
            have : (emit (.arr (x :: xs2))).length = (emitElems (x :: xs2)).length + 2 := by
              simp [emit]
            omega
          rw [ihE (x :: xs2) rest (by simp) hlen2]
          rfl
      | obj ms =>
        cases ms with
        | nil => simp [emit, emitMembers, parseVal]
        | cons kv ms2 =>
          have hobj : emit (.obj (kv :: ms2)) ++ rest =
              '{' :: (emitMembers (kv :: ms2) ++ '}' :: rest) := by
            simp [emit]
          rw [hobj]
          have hmem : ∃ t, emitMembers (kv :: ms2) = '"' :: t := by
            rcases kv with ⟨k, v⟩
            cases ms2 with
            | nil =>
              exact ⟨escapeChars k.data ++ '"' :: ':' :: emit v, by simp [emitMembers]⟩
            | cons m2 ms3 =>
              exact ⟨escapeChars k.data ++ '"' :: ':' :: emit v ++ ',' :: emitMembers (m2 :: ms3),
                by simp [emitMembers]⟩
          obtain ⟨t, ht⟩ := hmem
          have hscr : emitMembers (kv :: ms2) ++ '}' :: rest = '"' :: (t ++ '}' :: rest) := by
            rw [ht]; simp
          rw [hscr, parseVal_brace f '"' _ (by decide), ← hscr]
          have hlen2 : (emitMembers (kv :: ms2)).length + 1 < f := by
            have : (emit (.obj (kv :: ms2))).length = (emitMembers (kv :: ms2)).length + 2 := by
              simp [emit]
            omega
          rw [ihM (kv :: ms2) rest (by simp) hlen2]
          rfl
    · intro xs rest hne hlen
      match xs with
      | [] => exact absurd rfl hne
      | [x] =>
        have h1 : emitElems [x] = emit x := by simp [emitElems]
        rw [h1]
        have hv := ihV x (']' :: rest) (by rw [h1] at hlen; omega) rfl
        simp [parseElems, hv]
      | x :: y :: ys =>
        have h1 : emitElems (x :: y :: ys) = emit x ++ ',' :: emitElems (y :: ys) := by
          simp [emitElems]
        have hlen2 : (emit x).length + 1 + (emitElems (y :: ys)).length + 1 < f + 1 := by
          rw [h1] at hlen
          simp [List.length_append] at hlen
          omega
        rw [h1]
        have assoc : (emit x ++ ',' :: emitElems (y :: ys)) ++ ']' :: rest =
            emit x ++ (',' :: (emitElems (y :: ys) ++ ']' :: rest)) := by
          simp
        rw [assoc]
        have hv := ihV x (',' :: (emitElems (y :: ys) ++ ']' :: rest)) (by omega) rfl
        simp only [parseElems, hv]
        rw [ihE (y :: ys) rest (by simp) (by omega)]
        rfl
    · intro ms rest hne hlen
      match ms with
      | [] => exact absurd rfl hne
      | [(k, v)] =>
        have h1 : emitMembers [(k, v)] = '"' :: (escapeChars k.data ++ '"' :: ':' :: emit v) := by
          simp [emitMembers]
        have hlv : (emit v).length < f := by
          rw [h1] at hlen
          simp [List.length_append] at hlen
          omega
        rw [h1]
        have assoc : ('"' :: (escapeChars k.data ++ '"' :: ':' :: emit v)) ++ '}' :: rest =
            '"' :: (escapeChars k.data ++ '"' :: (':' :: (emit v ++ '}' :: rest))) := by
          simp
        rw [assoc]
        have hv := ihV v ('}' :: rest) hlv rfl
        simp [parseMembers, parseStrChars_escape, hv, string_mk_data]
      | (k, v) :: m2 :: ms2 =>
        have h1 : emitMembers ((k, v) :: m2 :: ms2) =
            '"' :: (escapeChars k.data ++ '"' :: ':' :: emit v ++ ',' :: emitMembers (m2 :: ms2)) := by
          simp [emitMembers]
        have hlen2 : (emit v).length < f ∧ (emitMembers (m2 :: ms2)).length + 1 < f := by
          rw [h1] at hlen
          simp [List.length_append] at hlen
          omega
        rw [h1]
        have assoc : ('"' :: (escapeChars k.data ++ '"' :: ':' :: emit v ++ ',' :: emitMembers (m2 :: ms2)))
              ++ '}' :: rest =
            '"' :: (escapeChars k.data ++ '"' ::
              (':' :: (emit v ++ ',' :: (emitMembers (m2 :: ms2) ++ '}' :: rest)))) := by
          simp
        rw [assoc]
        have hv := ihV v (',' :: (emitMembers (m2 :: ms2) ++ '}' :: rest)) hlen2.1 rfl
        simp only [parseMembers, parseStrChars_escape, hv, string_mk_data]
        rw [ihM (m2 :: ms2) rest (by simp) hlen2.2]
        rfl

/-- Round trip of the modelled `json` module: `loads` inverts `dumps`. -/
theorem loads_dumps (j : Json) : loads (dumps j) = some j := by
  unfold loads dumps
  have hd : (String.mk (emit j)).data = emit j := rfl
  rw [hd]
  have h := (parse_emit ((emit j).length + 1)).1 j [] (by omega) rfl
  rw [List.append_nil] at h
  rw [h]

/-
  Python dictionary primitives.  Backend records and parsed replies are
  Python dicts, modelled as association lists in insertion order with
  unique keys; `dict.get(k, d)` is `dictGetD`, membership is `dictHas`.
-/

/-- Value stored under a key, if present (first occurrence). -/
def dictFind (kvs : List (String × Json)) (k : String) : Option Json :=
  (kvs.find? (fun kv => kv.1 == k)).map (fun kv => kv.2)

/-- Model of Python `dict.get(k, d)`. -/
def dictGetD (kvs : List (String × Json)) (k : String) (d : Json) : Json :=
  (dictFind kvs k).getD d

/-- Model of Python `k in dict`. -/
def dictHas (kvs : List (String × Json)) (k : String) : Bool :=
  (dictFind kvs k).isSome

/-
  Embedding of `OptimusDBProxy._parse_optimusdb_response`
  (metadata_service/proxy/optimusdb_proxy.py, lines 55-119).  The reply
  body is the text handed to `response.json()`; a failed initial parse is
  the `json.JSONDecodeError` branch returning the empty data envelope.
-/

/-- The soft empty reply, Python `{"data": {"records": []}}` (braces and
quotes as in the source). -/
def empty_data_response : Json := .obj [("data", .obj [("records", .arr [])])]

/-- The unwrap loop of `_parse_optimusdb_response`: while the value is a
string and budget remains, re-parse it; a parse failure inside the loop
returns the offending string (the `json.JSONDecodeError` handler). -/
def unwrapLoop : Nat → Json → Json ⊕ String
  | 0, r => .inl r
  | budget + 1, r =>
    match r with
    | .str s =>
      match loads s with
      | some r2 => unwrapLoop budget r2
      | none => .inr s
    | _ => .inl r

/-- Embedding of `_parse_optimusdb_response`: initial parse, bounded
unwrap loop (budget 5), dict validation, and the `data`/`records`/
`error`/`message` key checks, returning soft results on every failure. -/
def parse_optimusdb_response (body : String) : Json :=
  match loads body with
  | none => empty_data_response
  | some r0 =>
    match unwrapLoop 5 r0 with
    | .inr s => .obj [("error", .str s), ("data", .obj [("records", .arr [])])]
    | .inl r =>
      match r with
      | .obj kvs =>
        if !(dictHas kvs "data") && !(dictHas kvs "records") then
          if dictHas kvs "error" || dictHas kvs "message" then
            .obj [("error", dictGetD kvs "error" (dictGetD kvs "message" (.str "Unknown error"))),
                  ("data", .obj [("records", .arr [])])]
          else empty_data_response
        else .obj kvs
      | _ => empty_data_response

/-- Caller-side record extraction, Python
`result.get("data", ...).get("records", [])` as used by every caller of
the normalizer; a non-dict `data` or non-list `records` value makes the
caller degrade to the empty record set. -/
def records_of (j : Json) : List Json :=
  match j with
  | .obj kvs =>
    match dictGetD kvs "data" (.obj []) with
    | .obj dkvs =>
      match dictGetD dkvs "records" (.arr []) with
      | .arr xs => xs
      | _ => []
    | _ => []
  | _ => []

/-- Normalization of a raw reply body into a record set (the spec operation `normalize`). -/
def normalize_reply (body : String) : List Json := records_of (parse_optimusdb_response body)

/-- The nominal reply envelope carrying a record set. -/
def json_envelope (records : List Json) : Json :=
  .obj [("data", .obj [("records", .arr records)])]

/-- A value wrapped in `k` layers of JSON-string encoding. -/
def string_wrap : Nat → Json → Json
  | 0, j => j
  | k + 1, j => .str (dumps (string_wrap k j))

/-- A reply body whose text requires `k` string unwraps after the initial
parse before the value appears. -/
def wrapped_body (k : Nat) (j : Json) : String := dumps (string_wrap k j)

/-- Below the remaining budget, each loop step removes one wrap. -/
theorem unwrapLoop_wrap (b : Nat) : ∀ k : Nat, ∀ j : Json, b < k →
    unwrapLoop b (string_wrap k j) = .inl (string_wrap (k - b) j) := by
  induction b with
  | zero => intro k j _; simp [unwrapLoop]
  | succ b ih =>
    intro k j h
    cases k with
    | zero => omega
    | succ k2 =>
      simp only [string_wrap, unwrapLoop, loads_dumps]
      rw [ih k2 j (by omega)]
      have heq : k2 - b = k2 + 1 - (b + 1) := by omega
      rw [heq]

/-- With budget at least the wrap count, the loop fully unwraps an
object value. -/
theorem unwrapLoop_wrap_obj (k : Nat) : ∀ b : Nat, ∀ kvs : List (String × Json), k ≤ b →
    unwrapLoop b (string_wrap k (.obj kvs)) = .inl (.obj kvs) := by
  induction k with
  | zero =>
    intro b kvs _
    cases b <;> simp [string_wrap, unwrapLoop]
  | succ k2 ih =>
    intro b kvs h
    cases b with
    | zero => omega
    | succ b2 =>
      simp only [string_wrap, unwrapLoop, loads_dumps]
      exact ih b2 kvs (by omega)

/-- Extracting the records of an envelope returns them unchanged. -/
theorem records_of_envelope (records : List Json) :
    records_of (json_envelope records) = records := rfl

/-- Normalizing an envelope wrapped at most five times yields its
record set. -/
theorem normalize_wrapped_envelope (records : List Json) (n : Nat) (hn : n ≤ 5) :
    normalize_reply (wrapped_body n (json_envelope records)) = records := by
  unfold normalize_reply wrapped_body parse_optimusdb_response
  simp only [loads_dumps]
  rw [show json_envelope records = Json.obj [("data", .obj [("records", .arr records)])] from rfl]
  rw [unwrapLoop_wrap_obj n 5 _ hn]
  simp [dictHas, dictFind, records_of, dictGetD, List.find?]

/-- C1: a reply body carrying the record envelope behind one layer of
string wrapping, and one behind two layers, both normalize to exactly the
carried record set; a body needing six or more unwraps exhausts the
5-attempt budget and the parser returns the soft empty data envelope (so
normalization yields the empty record set) instead of failing. -/
theorem C1_unwrap_round_trip (R : List Json) (k : Nat) (hk : 6 ≤ k) :
    normalize_reply (wrapped_body 1 (json_envelope R)) = R ∧
    normalize_reply (wrapped_body 2 (json_envelope R)) = R ∧
    parse_optimusdb_response (wrapped_body k (json_envelope R)) = empty_data_response ∧
    normalize_reply (wrapped_body k (json_envelope R)) = [] := by
  have hbudget : parse_optimusdb_response (wrapped_body k (json_envelope R)) =
      empty_data_response := by
    unfold wrapped_body parse_optimusdb_response
    simp only [loads_dumps]
    rw [unwrapLoop_wrap 5 k _ (by omega)]
    obtain ⟨m, hm⟩ : ∃ m, k - 5 = m + 1 := ⟨k - 6, by omega⟩
    rw [hm]
    simp [string_wrap]
  refine ⟨normalize_wrapped_envelope R 1 (by omega),
    normalize_wrapped_envelope R 2 (by omega), hbudget, ?_⟩
  unfold normalize_reply
  rw [hbudget]
  rfl

/-- Witness for C1 at a concrete record set and wrap count six. -/
theorem C1_unwrap_round_trip_witness :
    normalize_reply (wrapped_body 1 (json_envelope [Json.obj [("name", Json.str "orders")]])) =
        [Json.obj [("name", Json.str "orders")]] ∧
    normalize_reply (wrapped_body 2 (json_envelope [Json.obj [("name", Json.str "orders")]])) =
        [Json.obj [("name", Json.str "orders")]] ∧
    parse_optimusdb_response (wrapped_body 6 (json_envelope [Json.obj [("name", Json.str "orders")]])) =
        empty_data_response ∧
    normalize_reply (wrapped_body 6 (json_envelope [Json.obj [("name", Json.str "orders")]])) = [] :=
  C1_unwrap_round_trip [Json.obj [("name", Json.str "orders")]] 6 (by decide)

/-- C2 counterexample: the claim says a non-mapping element of the
backend records array is dropped by normalization; on the code, a reply
whose records array is the single string element `junk` normalizes to a
record set still containing that string, so nothing is dropped. -/
theorem C2_counterexample :
    normalize_reply (dumps (json_envelope [Json.str "junk"])) = [Json.str "junk"] :=
  normalize_wrapped_envelope [Json.str "junk"] 0 (by decide)

/-- C2 amended: normalization returns the records sequence exactly as the
backend sent it; elements that are not mappings (here, a string placed
anywhere in the array) are kept in place, not dropped, and no
element-level mapping check is performed. -/
theorem C2_non_mapping_elements_kept (pre suf : List Json) (s : String) :
    normalize_reply (dumps (json_envelope (pre ++ Json.str s :: suf))) =
      pre ++ Json.str s :: suf :=
  normalize_wrapped_envelope (pre ++ Json.str s :: suf) 0 (by decide)

/-
  Python string primitives used by the URI codec
  (`_build_table_key`, lines 124-128, and `_parse_table_uri`,
  lines 163-212 of optimusdb_proxy.py).
-/

/-- ASCII whitespace stripped by Python `str.strip()`. -/
def pyWs (c : Char) : Bool :=
  c = ' ' || c = '\t' || c = '\n' || c = '\r' || c = '\x0B' || c = '\x0C'

/-- Model of Python `str.strip()` on characters. -/
def pyStripChars (cs : List Char) : List Char :=
  ((cs.dropWhile pyWs).reverse.dropWhile pyWs).reverse

/-- Model of Python single-character `str.replace(old, new)`. -/
def mapReplaceChar (old new : Char) (s : List Char) : List Char :=
  s.map (fun c => if c = old then new else c)

/-- Fuel-indexed worker for multi-character replace; each step consumes
at least one character, so fuel equal to the input length suffices. -/
def replaceSubFuel : Nat → List Char → List Char → List Char → List Char
  | 0, _, _, s => s
  | f + 1, pat, rep, s =>
    match s with
    | [] => []
    | c :: cs =>
      if pat.isPrefixOf (c :: cs) = true ∧ pat ≠ [] then
        rep ++ replaceSubFuel f pat rep ((c :: cs).drop pat.length)
      else c :: replaceSubFuel f pat rep cs

/-- Model of Python `str.replace(pat, rep)` for a multi-character
pattern: leftmost, non-overlapping occurrences. -/
def replaceSub (pat rep : List Char) (s : List Char) : List Char :=
  replaceSubFuel s.length pat rep s

/-- First occurrence of a separator: the part before it and the part
after it, or `none` when the separator does not occur. -/
def splitFirst (sep : List Char) (s : List Char) : Option (List Char × List Char) :=
  match s with
  | [] => none
  | c :: cs =>
    if sep.isPrefixOf (c :: cs) = true ∧ sep ≠ [] then
      some ([], (c :: cs).drop sep.length)
    else
      match splitFirst sep cs with
      | some p => some (c :: p.1, p.2)
      | none => none

/-- The first two fields of Python `s.split(sep)`: present exactly when
the separator occurs; the second field ends at the next occurrence. -/
def py_split_parts01 (sep : List Char) (s : List Char) : Option (List Char × List Char) :=
  match splitFirst sep s with
  | none => none
  | some (a, b) =>
    some (a,
      match splitFirst sep b with
      | none => b
      | some p => p.1)

/-- The canonical resource identifier triple. -/
structure TableRef where
  database : String
  schema : String
  name : String
deriving DecidableEq

/-- Embedding of `_build_table_key` (lines 124-128): empty components get
defaults, spaces become underscores, and the parts are joined in the
shape database, colon-slash-slash, `default.`, schema, slash, name. -/
def build_table_key (database schema name : String) : String :=
  let d := mapReplaceChar ' ' '_' (if database = "" then "optimusdb" else database).data
  let s := mapReplaceChar ' ' '_' (if schema = "" then "public" else schema).data
  let n := mapReplaceChar ' ' '_' (if name = "" then "unknown" else name).data
  String.mk (d ++ "://default.".data ++ s ++ "/".data ++ n)

/-- Embedding of `_parse_table_uri` (lines 163-212): strip, decode
percent-twenty, split on the protocol separator (default database when
absent, remainder falling back to the whole string), split the remainder
on the first slash into cluster-dot-schema and name, drop the cluster
before the first dot (default schema when no dot), and turn underscores
back into spaces in schema and name. -/
def uri_precleaned (table_uri : String) : List Char :=
  replaceSub ['%', '2', '0'] [' '] (pyStripChars table_uri.data)

/-- The database/rest split on the protocol separator: the part before
the first colon-slash-slash when present, otherwise the default database
with the whole cleaned string as remainder. -/
def uri_database_rest (u : List Char) : String × List Char :=
  match py_split_parts01 [':', '/', '/'] u with
  | some (d, rest) => (String.mk d, rest)
  | none => ("optimusdb", u)

/-- Schema/name recovery from the remainder: split on the first slash
into cluster-dot-schema and name (no slash: whole remainder is the name),
drop the cluster before the first dot (no dot: default schema), then turn
underscores back into spaces in schema and name. -/
def uri_schema_name (rest : List Char) : String × String :=
  match splitFirst ['/'] rest with
  | some (cluster_schema, name) =>
    (String.mk (mapReplaceChar '_' ' '
        (match splitFirst ['.'] cluster_schema with
         | some p => p.2
         | none => "default".data)),
      String.mk (mapReplaceChar '_' ' ' name))
  | none =>
    (String.mk (mapReplaceChar '_' ' ' "default".data),
      String.mk (mapReplaceChar '_' ' ' rest))

def parse_table_uri (table_uri : String) : TableRef :=
  let dr := uri_database_rest (uri_precleaned table_uri)
  let sn := uri_schema_name dr.2
  ⟨dr.1, sn.1, sn.2⟩

/-- A list is a prefix of itself followed by anything. -/
theorem isPrefixOf_append_self (l t : List Char) : l.isPrefixOf (l ++ t) = true := by
  induction l with
  | nil => simp [List.isPrefixOf]
  | cons c cs ih => simp [List.isPrefixOf, ih]

/-- Heads agree when a nonempty list is a prefix of another. -/
theorem isPrefixOf_cons_head {a c : Char} {as xs : List Char}
    (h : (a :: as).isPrefixOf (c :: xs) = true) : a = c := by
  simp [List.isPrefixOf] at h
  exact h.1

/-- `splitFirst` finds the first separator occurrence when the prefix
avoids the separator head character. -/
theorem splitFirst_append (s0 : Char) (st : List Char) :
    ∀ a b : List Char, s0 ∉ a →
      splitFirst (s0 :: st) (a ++ (s0 :: st) ++ b) = some (a, b) := by
  intro a
  induction a with
  | nil =>
    intro b _
    have hshape : ([] : List Char) ++ (s0 :: st) ++ b = s0 :: (st ++ b) := by simp
    rw [hshape]
    have hpre : (s0 :: st).isPrefixOf (s0 :: (st ++ b)) = true := isPrefixOf_append_self _ _
    have hdrop : (s0 :: (st ++ b)).drop (s0 :: st).length = b := by
      simp [List.drop_left]
    simp [splitFirst, hpre, hdrop]
  | cons c a2 ih =>
    intro b hmem
    have hc : s0 ≠ c := fun he => hmem (he ▸ List.mem_cons_self c a2)
    have hshape : (c :: a2) ++ (s0 :: st) ++ b = c :: (a2 ++ (s0 :: st) ++ b) := by simp
    rw [hshape]
    have hnpre : ¬((s0 :: st).isPrefixOf (c :: (a2 ++ (s0 :: st) ++ b)) = true ∧
        (s0 :: st) ≠ ([] : List Char)) := by
      rintro ⟨hp, -⟩
      exact hc (isPrefixOf_cons_head hp)
    rw [splitFirst, if_neg hnpre, ih b (fun hx => hmem (List.mem_cons_of_mem c hx))]

/-- `splitFirst` fails when the separator head never occurs. -/
theorem splitFirst_not_mem (s0 : Char) (st : List Char) :
    ∀ s : List Char, s0 ∉ s → splitFirst (s0 :: st) s = none := by
  intro s
  induction s with
  | nil => intro _; rfl
  | cons c cs ih =>
    intro hmem
    have hc : s0 ≠ c := fun he => hmem (he ▸ List.mem_cons_self c cs)
    have hnpre : ¬((s0 :: st).isPrefixOf (c :: cs) = true ∧ (s0 :: st) ≠ ([] : List Char)) := by
      rintro ⟨hp, -⟩
      exact hc (isPrefixOf_cons_head hp)
    rw [splitFirst, if_neg hnpre, ih (fun hx => hmem (List.mem_cons_of_mem c hx))]

/-- Multi-character replace is the identity when the pattern head never
occurs. -/
theorem replaceSubFuel_noop (p0 : Char) (pt rep : List Char) :
    ∀ f : Nat, ∀ s : List Char, p0 ∉ s → replaceSubFuel f (p0 :: pt) rep s = s := by
  intro f
  induction f with
  | zero => intro s _; rfl
  | succ f ih =>
    intro s hmem
    cases s with
    | nil => rfl
    | cons c cs =>
      have hc : p0 ≠ c := fun he => hmem (he ▸ List.mem_cons_self c cs)
      have hnpre : ¬((p0 :: pt).isPrefixOf (c :: cs) = true ∧ (p0 :: pt) ≠ ([] : List Char)) := by
        rintro ⟨hp, -⟩
        exact hc (isPrefixOf_cons_head hp)
      rw [replaceSubFuel, if_neg hnpre, ih cs (fun hx => hmem (List.mem_cons_of_mem c hx))]

/-- Replace is the identity when the pattern head never occurs. -/
theorem replaceSub_noop (p0 : Char) (pt rep : List Char) (s : List Char) (h : p0 ∉ s) :
    replaceSub (p0 :: pt) rep s = s :=
  replaceSubFuel_noop p0 pt rep s.length s h

/-- Single-character replace is the identity when the old character never
occurs. -/
theorem mapReplaceChar_noop (old new : Char) (s : List Char) (h : old ∉ s) :
    mapReplaceChar old new s = s := by
  induction s with
  | nil => rfl
  | cons c cs ih =>
    have hc : c ≠ old := fun he => h (he ▸ List.mem_cons_self c cs)
    simp [mapReplaceChar, hc] at ih ⊢
    exact ih (fun hx => h (List.mem_cons_of_mem c hx))

/-- Underscore-to-space restores a space-to-underscore image when the
original had no underscores. -/
theorem map_underscore_space (s : List Char) (h : '_' ∉ s) :
    mapReplaceChar '_' ' ' (mapReplaceChar ' ' '_' s) = s := by
  induction s with
  | nil => rfl
  | cons c cs ih =>
    have hc : c ≠ '_' := fun he => h (he ▸ List.mem_cons_self c cs)
    have ih2 := ih (fun hx => h (List.mem_cons_of_mem c hx))
    by_cases hsp : c = ' '
    · subst hsp
      simp [mapReplaceChar] at ih2 ⊢
      exact ih2
    · simp [mapReplaceChar, hsp, hc] at ih2 ⊢
      exact ih2

/-- `dropWhile` is the identity once a nonempty leading block fails the
predicate. -/
theorem dropWhile_append_noop (p : Char → Bool) (a t : List Char) (hne : a ≠ [])
    (h : ∀ c ∈ a, p c = false) : (a ++ t).dropWhile p = a ++ t := by
  cases a with
  | nil => exact absurd rfl hne
  | cons c cs => simp [List.dropWhile_cons, h c (List.mem_cons_self c cs)]

/-- Stripping is the identity when both ends avoid whitespace. -/
theorem pyStrip_noop_of_ends (a m b : List Char) (hane : a ≠ []) (hbne : b ≠ [])
    (ha : ∀ c ∈ a, pyWs c = false) (hb : ∀ c ∈ b, pyWs c = false) :
    pyStripChars (a ++ m ++ b) = a ++ m ++ b := by
  unfold pyStripChars
  rw [show a ++ m ++ b = a ++ (m ++ b) from by simp]
  rw [dropWhile_append_noop pyWs a (m ++ b) hane ha]
  rw [show a ++ (m ++ b) = (a ++ m) ++ b from by simp]
  rw [List.reverse_append]
  rw [dropWhile_append_noop pyWs b.reverse (a ++ m).reverse
    (by simpa using hbne) (fun c hc => hb c (List.mem_reverse.mp hc))]
  simp

/-- A nonempty string has nonempty character data. -/
theorem string_data_ne_nil {s : String} (h : s ≠ "") : s.data ≠ [] := by
  intro hd
  apply h
  rw [← string_mk_data s, hd]

/-- C3 counterexample: the claim quantifies over all triples whose schema
and name avoid underscores; for the database `my db` (which contains a
space) the encoded key decodes to database `my_db`, not the original
triple, so the stated round trip fails. -/
theorem C3_counterexample :
    parse_table_uri (build_table_key "my db" "sales" "orders") =
        TableRef.mk "my_db" "sales" "orders" ∧
    parse_table_uri (build_table_key "my db" "sales" "orders") ≠
        TableRef.mk "my db" "sales" "orders" := by
  constructor
  · decide
  · decide

/-- Pre-cleaning is the identity on a key whose ends avoid whitespace and
which contains no percent character. -/
theorem uri_precleaned_mk_noop (a m b : List Char) (hane : a ≠ []) (hbne : b ≠ [])
    (ha : ∀ c ∈ a, pyWs c = false) (hb : ∀ c ∈ b, pyWs c = false)
    (hp : '%' ∉ a ++ m ++ b) :
    uri_precleaned (String.mk (a ++ m ++ b)) = a ++ m ++ b := by
  unfold uri_precleaned
  rw [show (String.mk (a ++ m ++ b)).data = a ++ m ++ b from rfl]
  rw [pyStrip_noop_of_ends a m b hane hbne ha hb]
  exact replaceSub_noop '%' ['2', '0'] [' '] _ hp

/-- The protocol split recovers the database part when colons occur only
in the separator. -/
theorem uri_database_rest_split (d rest0 : List Char)
    (hd : ':' ∉ d) (hr : ':' ∉ rest0) :
    uri_database_rest (d ++ [':', '/', '/'] ++ rest0) = (String.mk d, rest0) := by
  unfold uri_database_rest py_split_parts01
  simp only [splitFirst_append ':' ['/', '/'] d rest0 hd,
    splitFirst_not_mem ':' ['/', '/'] rest0 hr]

/-- The remainder split recovers schema and name when the schema part has
no slash. -/
theorem uri_schema_name_split (sp np : List Char) (hsp : '/' ∉ sp) :
    uri_schema_name ("default.".data ++ sp ++ ['/'] ++ np) =
      (String.mk (mapReplaceChar '_' ' ' sp), String.mk (mapReplaceChar '_' ' ' np)) := by
  unfold uri_schema_name
  have hds : '/' ∉ "default.".data ++ sp := by
    rw [List.mem_append]
    rintro (hlit | hin)
    · exact absurd hlit (by decide)
    · exact hsp hin
  simp only [splitFirst_append '/' [] ("default.".data ++ sp) np hds]
  rw [show "default.".data ++ sp = "default".data ++ ['.'] ++ sp from rfl]
  simp only [splitFirst_append '.' [] "default".data sp (by decide)]

/-- C3 amended: for triples whose components are nonempty and free of
colons, percents and exotic whitespace, whose database has no space,
whose schema has no slash, and whose schema and name have no underscores
(the claim's own restriction), decoding the encoded key returns exactly
the original triple. -/
theorem C3_uri_round_trip (database schema name : String)
    (hd1 : database ≠ "")
    (hd2 : ∀ c ∈ database.data, c ≠ ':' ∧ c ≠ '%' ∧ pyWs c = false)
    (hs1 : schema ≠ "") (hs2 : '_' ∉ schema.data) (hs3 : '/' ∉ schema.data)
    (hs4 : ∀ c ∈ schema.data, c ≠ ':' ∧ c ≠ '%' ∧ (pyWs c = true → c = ' '))
    (hn1 : name ≠ "") (hn2 : '_' ∉ name.data)
    (hn3 : ∀ c ∈ name.data, c ≠ ':' ∧ c ≠ '%' ∧ (pyWs c = true → c = ' ')) :
    parse_table_uri (build_table_key database schema name) =
      TableRef.mk database schema name := by
  have hspace_d : ' ' ∉ database.data := fun hm => by
    have := (hd2 ' ' hm).2.2
    simp [pyWs] at this
  have hsp_props : ∀ c ∈ mapReplaceChar ' ' '_' schema.data,
      pyWs c = false ∧ c ≠ ':' ∧ c ≠ '%' ∧ c ≠ '/' := by
    intro c hc
    obtain ⟨c0, hc0, hce⟩ := List.mem_map.mp hc
    by_cases h0 : c0 = ' '
    · rw [h0] at hce
      simp at hce
      subst hce
      exact ⟨by decide, by decide, by decide, by decide⟩
    · rw [if_neg h0] at hce
      subst hce
      obtain ⟨ha, hb, hwc⟩ := hs4 c0 hc0
      refine ⟨?_, ha, hb, fun he => hs3 (he ▸ hc0)⟩
      by_contra hws
      simp only [Bool.not_eq_false] at hws
      exact h0 (hwc hws)
  have hnp_props : ∀ c ∈ mapReplaceChar ' ' '_' name.data,
      pyWs c = false ∧ c ≠ ':' ∧ c ≠ '%' := by
    intro c hc
    obtain ⟨c0, hc0, hce⟩ := List.mem_map.mp hc
    by_cases h0 : c0 = ' '
    · rw [h0] at hce
      simp at hce
      subst hce
      exact ⟨by decide, by decide, by decide⟩
    · rw [if_neg h0] at hce
      subst hce
      obtain ⟨ha, hb, hwc⟩ := hn3 c0 hc0
      refine ⟨?_, ha, hb⟩
      by_contra hws
      simp only [Bool.not_eq_false] at hws
      exact h0 (hwc hws)
  have hnp_ne : mapReplaceChar ' ' '_' name.data ≠ [] := by
    intro h
    exact string_data_ne_nil hn1 (by simpa [mapReplaceChar] using h)
  have hkey : build_table_key database schema name =
      String.mk (database.data ++
        ("://default.".data ++ mapReplaceChar ' ' '_' schema.data ++ "/".data) ++
        mapReplaceChar ' ' '_' name.data) := by
    unfold build_table_key
    rw [if_neg hd1, if_neg hs1, if_neg hn1,
      mapReplaceChar_noop ' ' '_' database.data hspace_d]
    simp
  have hpercent : '%' ∉ database.data ++
      ("://default.".data ++ mapReplaceChar ' ' '_' schema.data ++ "/".data) ++
      mapReplaceChar ' ' '_' name.data := by
    intro hmem
    simp only [List.mem_append] at hmem
    rcases hmem with (hm | ((hm | hm) | hm)) | hm
    · exact (hd2 '%' hm).2.1 rfl
    · exact absurd hm (by decide)
    · exact (hsp_props '%' hm).2.2.1 rfl
    · exact absurd hm (by decide)
    · exact (hnp_props '%' hm).2.2 rfl
  have hpre : uri_precleaned (build_table_key database schema name) =
      database.data ++
        ("://default.".data ++ mapReplaceChar ' ' '_' schema.data ++ "/".data) ++
        mapReplaceChar ' ' '_' name.data := by
    rw [hkey]
    exact uri_precleaned_mk_noop _ _ _ (string_data_ne_nil hd1) hnp_ne
      (fun c hc => (hd2 c hc).2.2) (fun c hc => (hnp_props c hc).1) hpercent
  have hshape : database.data ++
      ("://default.".data ++ mapReplaceChar ' ' '_' schema.data ++ "/".data) ++
      mapReplaceChar ' ' '_' name.data =
      database.data ++ [':', '/', '/'] ++
        ("default.".data ++ mapReplaceChar ' ' '_' schema.data ++ ['/'] ++
          mapReplaceChar ' ' '_' name.data) := by
    rw [show "://default.".data = [':', '/', '/'] ++ "default.".data from rfl]
    rw [show "/".data = (['/'] : List Char) from rfl]
    simp
  have hcolon_rest : ':' ∉ "default.".data ++ mapReplaceChar ' ' '_' schema.data ++ ['/'] ++
      mapReplaceChar ' ' '_' name.data := by
    intro hmem
    simp only [List.mem_append] at hmem
    rcases hmem with ((hm | hm) | hm) | hm
    · exact absurd hm (by decide)
    · exact (hsp_props ':' hm).2.1 rfl
    · exact absurd hm (by decide)
    · exact (hnp_props ':' hm).2.1 rfl
  have hdr : uri_database_rest (uri_precleaned (build_table_key database schema name)) =
      (database,
        "default.".data ++ mapReplaceChar ' ' '_' schema.data ++ ['/'] ++
          mapReplaceChar ' ' '_' name.data) := by
    rw [hpre, hshape,
      uri_database_rest_split database.data _ (fun hm => (hd2 ':' hm).1 rfl) hcolon_rest,
      string_mk_data]
  have hsn : uri_schema_name ("default.".data ++ mapReplaceChar ' ' '_' schema.data ++ ['/'] ++
      mapReplaceChar ' ' '_' name.data) = (schema, name) := by
    rw [uri_schema_name_split _ _ (fun hm => (hsp_props '/' hm).2.2.2 rfl)]
    rw [map_underscore_space schema.data hs2, map_underscore_space name.data hn2,
      string_mk_data, string_mk_data]
  unfold parse_table_uri
  rw [hdr]
  simp only [hsn]

/-- Witness for C3 at a concrete space-bearing schema and name. -/
theorem C3_uri_round_trip_witness :
    parse_table_uri (build_table_key "optimusdb" "Type A" "Sample Name") =
      TableRef.mk "optimusdb" "Type A" "Sample Name" :=
  C3_uri_round_trip "optimusdb" "Type A" "Sample Name" (by decide) (by decide) (by decide)
    (by decide) (by decide) (by decide) (by decide) (by decide) (by decide)

/-
  Search ranker embedding: `_calculate_search_score` (lines 1924-1975)
  and `get_table_by_search` (lines 1859-1907) of optimusdb_proxy.py.
  Datasets are the search documents built by `discover_datasets`, whose
  scored fields are strings (name, schema, description, database), a tag
  field that may be a comma string or a list, and a column-name list.
  Scores are sums of fixed positive integer contributions; the Python
  float accumulator is modelled as a natural number.
-/

/-- ASCII lowering of one character (model of `str.lower()`, restricted
to the ASCII range the catalog uses). -/
def lowerChar (c : Char) : Char :=
  if 'A' ≤ c ∧ c ≤ 'Z' then Char.ofNat (c.toNat + 32) else c

/-- Model of `str.lower()`. -/
def py_lower (s : String) : String := String.mk (s.data.map lowerChar)

/-- Model of `str.strip()`. -/
def py_strip (s : String) : String := String.mk (pyStripChars s.data)

/-- Substring test, Python `pat in s`. -/
def containsSub (pat : List Char) : List Char → Bool
  | [] => pat.isEmpty
  | c :: tail => pat.isPrefixOf (c :: tail) || containsSub pat tail

/-- Python `pat in s` on strings. -/
def str_contains (pat s : String) : Bool := containsSub pat.data s.data

/-- Python `s.startswith(pre)`. -/
def py_startswith (pre s : String) : Bool := pre.data.isPrefixOf s.data

/-- Split on a separator character, Python `str.split(sep)`. -/
def split_on (sep : Char) : List Char → List (List Char)
  | [] => [[]]
  | c :: cs =>
    let r := split_on sep cs
    if c = sep then [] :: r
    else
      match r with
      | h :: t => (c :: h) :: t
      | [] => [[c]]

/-- Python `s.split(sep)` on strings. -/
def py_split_str (sep : Char) (s : String) : List String :=
  (split_on sep s.data).map String.mk

/-- The stripped nonempty parts of a comma-separated string, the Python
idiom `[t.strip() for t in s.split(",") if t.strip()]`. -/
def strip_nonempty_parts (s : String) : List String :=
  ((py_split_str ',' s).map py_strip).filter (fun t => t ≠ "")

/-- The `tags` field of a search dataset: a comma string or a list. -/
inductive TagsValue where
  | ofStr (s : String)
  | ofList (tags : List String)

/-- A search document as consumed by the scorer. -/
structure SearchDataset where
  name : String
  schema : String
  description : String
  database : String
  tags : TagsValue
  column_names : List String

/-- The scorer's tag normalization: a string tag field is comma-split
and stripped, a list is used as is. -/
def tags_list (d : SearchDataset) : List String :=
  match d.tags with
  | .ofList l => l
  | .ofStr s => strip_nonempty_parts s

/-- Name signal: 100 exact, 80 prefix, 50 substring. -/
def name_points (d : SearchDataset) (q : String) : Nat :=
  let n := py_lower d.name
  if n = q then 100
  else if py_startswith q n then 80
  else if str_contains q n then 50
  else 0

/-- Schema signal: 40 for equality or substring. -/
def schema_points (d : SearchDataset) (q : String) : Nat :=
  let s := py_lower d.schema
  if (s == q) || str_contains q s then 40 else 0

/-- Tag signal: 30 once, at the first matching tag. -/
def tag_points (d : SearchDataset) (q : String) : Nat :=
  if (tags_list d).any (fun t => (q == py_lower t) || str_contains q (py_lower t)) then 30 else 0

/-- Description signal: 20 for a substring hit. -/
def description_points (d : SearchDataset) (q : String) : Nat :=
  if str_contains q (py_lower d.description) then 20 else 0

/-- Column-name signal: 15 once, at the first matching column. -/
def column_points (d : SearchDataset) (q : String) : Nat :=
  if d.column_names.any (fun c => str_contains q (py_lower c)) then 15 else 0

/-- Database signal: 10 for a substring hit. -/
def database_points (d : SearchDataset) (q : String) : Nat :=
  if str_contains q (py_lower d.database) then 10 else 0

/-- Embedding of `_calculate_search_score`: zero on an empty query,
otherwise the sum of the six independent signals. -/
def calculate_search_score (d : SearchDataset) (q : String) : Nat :=
  if q = "" then 0
  else name_points d q + schema_points d q + tag_points d q + description_points d q +
    column_points d q + database_points d q

/-- The search reply page shape. -/
structure SearchPage where
  total_results : Nat
  results : List SearchDataset
  page_index : Nat

/-- Embedding of `get_table_by_search` over the discovered datasets:
lower and strip the query, keep only positive-score datasets, sort by
score descending, and slice the page of ten. -/
def get_table_by_search (all_datasets : List SearchDataset) (query_term : String)
    (page_index : Nat) : SearchPage :=
  let q := py_strip (py_lower query_term)
  let scored := all_datasets.filterMap (fun d =>
    let s := calculate_search_score d q
    if 0 < s then some (s, d) else none)
  let sorted := scored.mergeSort (fun a b => b.1 ≤ a.1)
  let matching := sorted.map (fun p => p.2)
  { total_results := matching.length
    results := (matching.drop (page_index * 10)).take 10
    page_index := page_index }

/-- Every list is a prefix of itself. -/
theorem isPrefixOf_refl (p : List Char) : p.isPrefixOf p = true := by
  have h := isPrefixOf_append_self p []
  rwa [List.append_nil] at h

/-- A list contains itself as a substring. -/
theorem containsSub_refl (p : List Char) : containsSub p p = true := by
  cases p with
  | nil => rfl
  | cons c cs => simp [containsSub, isPrefixOf_refl]

/-- A prefix is in particular a substring. -/
theorem containsSub_of_isPrefixOf {p s : List Char} (h : p.isPrefixOf s = true) :
    containsSub p s = true := by
  cases s with
  | nil =>
    cases p with
    | nil => rfl
    | cons a as => simp [List.isPrefixOf] at h
  | cons c t => simp [containsSub, h]

/-- A string contains itself. -/
theorem str_contains_refl (s : String) : str_contains s s = true := containsSub_refl s.data

/-- A starting match is in particular a substring match. -/
theorem str_contains_of_startswith {p s : String} (h : py_startswith p s = true) :
    str_contains p s = true := containsSub_of_isPrefixOf h

/-- C4: with the query `sales`, a record named exactly `sales` scores
strictly above an otherwise-identical record named `sales_report`
(prefix match), which scores strictly above any record whose only
matching signal is `sales` inside its description. -/
theorem C4_search_score_monotonic
    (schema desc db : String) (tags : TagsValue) (cols : List String)
    (C : SearchDataset)
    (hCname : str_contains "sales" (py_lower C.name) = false)
    (hCschema : str_contains "sales" (py_lower C.schema) = false)
    (hCtags : ∀ t ∈ tags_list C, str_contains "sales" (py_lower t) = false)
    (hCdesc : str_contains "sales" (py_lower C.description) = true)
    (hCcols : ∀ c ∈ C.column_names, str_contains "sales" (py_lower c) = false)
    (hCdb : str_contains "sales" (py_lower C.database) = false) :
    calculate_search_score ⟨"sales", schema, desc, db, tags, cols⟩ "sales" >
      calculate_search_score ⟨"sales_report", schema, desc, db, tags, cols⟩ "sales" ∧
    calculate_search_score ⟨"sales_report", schema, desc, db, tags, cols⟩ "sales" >
      calculate_search_score C "sales" := by
  have eA : name_points ⟨"sales", schema, desc, db, tags, cols⟩ "sales" = 100 := rfl
  have eB : name_points ⟨"sales_report", schema, desc, db, tags, cols⟩ "sales" = 80 := rfl
  have hCn : name_points C "sales" = 0 := by
    unfold name_points
    rw [if_neg, if_neg, if_neg]
    · rw [hCname]
      exact Bool.false_ne_true
    · intro hpre
      have := str_contains_of_startswith hpre
      rw [hCname] at this
      exact absurd this (by decide)
    · intro he
      rw [he, str_contains_refl] at hCname
      exact absurd hCname (by decide)
  have hCs : schema_points C "sales" = 0 := by
    unfold schema_points
    rw [if_neg]
    intro hcond
    simp only [Bool.or_eq_true, beq_iff_eq, hCschema] at hcond
    rcases hcond with he | hc
    · rw [he, str_contains_refl] at hCschema
      exact absurd hCschema (by decide)
    · exact absurd hc (by decide)
  have hCt : tag_points C "sales" = 0 := by
    unfold tag_points
    rw [if_neg]
    intro hcond
    simp only [List.any_eq_true, Bool.or_eq_true, beq_iff_eq] at hcond
    obtain ⟨t, ht, hmatch⟩ := hcond
    rcases hmatch with he | hc
    · have := hCtags t ht
      rw [← he, str_contains_refl] at this
      exact absurd this (by decide)
    · rw [hCtags t ht] at hc
      exact absurd hc (by decide)
  have hCd2 : description_points C "sales" = 20 := by
    unfold description_points
    rw [if_pos hCdesc]
  have hCc : column_points C "sales" = 0 := by
    unfold column_points
    rw [if_neg]
    intro hcond
    simp only [List.any_eq_true] at hcond
    obtain ⟨c, hc, hmatch⟩ := hcond
    rw [hCcols c hc] at hmatch
    exact absurd hmatch (by decide)
  have hCdb2 : database_points C "sales" = 0 := by
    unfold database_points
    rw [if_neg]
    rw [hCdb]
    exact Bool.false_ne_true
  have hCscore : calculate_search_score C "sales" = 20 := by
    unfold calculate_search_score
    rw [if_neg (by decide : ¬("sales" = ("" : String)))]
    rw [hCn, hCs, hCt, hCd2, hCc, hCdb2]
  have es : schema_points ⟨"sales", schema, desc, db, tags, cols⟩ "sales" =
      schema_points ⟨"sales_report", schema, desc, db, tags, cols⟩ "sales" := rfl
  have et : tag_points ⟨"sales", schema, desc, db, tags, cols⟩ "sales" =
      tag_points ⟨"sales_report", schema, desc, db, tags, cols⟩ "sales" := rfl
  have ed : description_points ⟨"sales", schema, desc, db, tags, cols⟩ "sales" =
      description_points ⟨"sales_report", schema, desc, db, tags, cols⟩ "sales" := rfl
  have ec : column_points ⟨"sales", schema, desc, db, tags, cols⟩ "sales" =
      column_points ⟨"sales_report", schema, desc, db, tags, cols⟩ "sales" := rfl
  have edb : database_points ⟨"sales", schema, desc, db, tags, cols⟩ "sales" =
      database_points ⟨"sales_report", schema, desc, db, tags, cols⟩ "sales" := rfl
  constructor
  · unfold calculate_search_score
    simp only [if_neg (by decide : ¬("sales" = ("" : String)))]
    rw [eA, eB, es, et, ed, ec, edb]
    omega
  · have hB : 80 ≤ calculate_search_score ⟨"sales_report", schema, desc, db, tags, cols⟩ "sales" := by
      unfold calculate_search_score
      rw [if_neg (by decide : ¬("sales" = ("" : String))), eB]
      omega
    rw [hCscore]
    omega

/-- Witness for C4 at concrete datasets. -/
theorem C4_search_score_monotonic_witness :
    calculate_search_score ⟨"sales", "marketing", "quarterly data", "optimusdb",
        TagsValue.ofList ["finance"], ["id"]⟩ "sales" >
      calculate_search_score ⟨"sales_report", "marketing", "quarterly data", "optimusdb",
        TagsValue.ofList ["finance"], ["id"]⟩ "sales" ∧
    calculate_search_score ⟨"sales_report", "marketing", "quarterly data", "optimusdb",
        TagsValue.ofList ["finance"], ["id"]⟩ "sales" >
      calculate_search_score ⟨"report2024", "marketing", "the sales figures", "catalogdb",
        TagsValue.ofList ["finance"], ["id"]⟩ "sales" :=
  C4_search_score_monotonic "marketing" "quarterly data" "optimusdb"
    (TagsValue.ofList ["finance"]) ["id"]
    ⟨"report2024", "marketing", "the sales figures", "catalogdb",
      TagsValue.ofList ["finance"], ["id"]⟩
    (by decide) (by decide) (by decide) (by decide) (by decide) (by decide)

/-- C5: every record in the returned table-search results has a strictly
positive score for the cleaned query (zero-score records are excluded
entirely), and the empty query gives every record score zero, so the
search returns the empty page. -/
theorem C5_zero_score_excluded (datasets : List SearchDataset) (query_term : String)
    (page_index : Nat) :
    (∀ d ∈ (get_table_by_search datasets query_term page_index).results,
        0 < calculate_search_score d (py_strip (py_lower query_term))) ∧
    (query_term = "" →
      get_table_by_search datasets query_term page_index = ⟨0, [], page_index⟩) := by
  constructor
  · intro d hd
    unfold get_table_by_search at hd
    simp only at hd
    have h1 : d ∈ ((datasets.filterMap (fun d =>
        if 0 < calculate_search_score d (py_strip (py_lower query_term)) then
          some (calculate_search_score d (py_strip (py_lower query_term)), d)
        else none)).mergeSort (fun a b => b.1 ≤ a.1)).map (fun p => p.2) :=
      List.mem_of_mem_drop (List.mem_of_mem_take hd)
    obtain ⟨p, hp, hpd⟩ := List.mem_map.mp h1
    have hp2 := (List.mergeSort_perm _ _).mem_iff.mp hp
    obtain ⟨a, _, hfa⟩ := List.mem_filterMap.mp hp2
    by_cases hpos : 0 < calculate_search_score a (py_strip (py_lower query_term))
    · rw [if_pos hpos] at hfa
      obtain ⟨rfl⟩ : (calculate_search_score a (py_strip (py_lower query_term)), a) = p :=
        Option.some.inj hfa
      rw [← hpd]
      exact hpos
    · rw [if_neg hpos] at hfa
      exact absurd hfa (by simp)
  · intro he
    subst he
    have hz : ∀ d : SearchDataset, calculate_search_score d (py_strip (py_lower "")) = 0 :=
      fun d => rfl
    have hnil : datasets.filterMap (fun d =>
        if 0 < calculate_search_score d (py_strip (py_lower "")) then
          some (calculate_search_score d (py_strip (py_lower "")), d)
        else none) = [] := by
      rw [List.filterMap_eq_nil_iff]
      intro a _
      rw [if_neg]
      rw [hz a]
      omega
    unfold get_table_by_search
    simp only [hnil, List.mergeSort_nil, List.map_nil, List.length_nil, List.drop_nil,
      List.take_nil]

/-- Witness for C5 at a concrete dataset list and the empty query. -/
theorem C5_zero_score_excluded_witness :
    get_table_by_search
      [⟨"sales", "marketing", "quarterly data", "optimusdb", TagsValue.ofList [], []⟩] "" 0 =
      ⟨0, [], 0⟩ :=
  (C5_zero_score_excluded
    [⟨"sales", "marketing", "quarterly data", "optimusdb", TagsValue.ofList [], []⟩] "" 0).2 rfl

/-
  Entity mapper, columns: `_build_columns_from_record` (lines 544-614)
  with its schema map, plus the two inference helpers `_infer_type`
  (lines 370-379, defined but never called) and the module-level
  `_infer_column_type` (lines 2245-2270) that the in-file integration
  instructions say should replace the default.
-/

/-- ASCII raising of one character (model of `str.upper()`). -/
def upperChar (c : Char) : Char :=
  if 'a' ≤ c ∧ c ≤ 'z' then Char.ofNat (c.toNat - 32) else c

/-- Model of `str.upper()`. -/
def py_upper (s : String) : String := String.mk (s.data.map upperChar)

/-- Model of `str.title()`: capitalize the first letter of each
alphabetic run, lower the rest. -/
def titleChars : Bool → List Char → List Char
  | _, [] => []
  | prevAlpha, c :: cs =>
    (if c.isAlpha then (if prevAlpha then lowerChar c else upperChar c) else c) ::
      titleChars c.isAlpha cs

/-- Model of `str.title()` on strings. -/
def py_title (s : String) : String := String.mk (titleChars false s.data)

/-- A discovered schema column: the `name` and `type` fields read from
one schema-introspection row. -/
structure SchemaCol where
  name : String
  type : String

/-- The schema map built by `_build_columns_from_record`: entries with
empty names are skipped and later assignments overwrite earlier ones, so
lookup returns the last surviving entry, with a default for misses. -/
def schema_map_get (schema_info : List SchemaCol) (field dflt : String) : String :=
  match (schema_info.filter (fun c => c.name ≠ "")).reverse.find? (fun c => c.name == field) with
  | some c => c.type
  | none => dflt

/-- The keyword table simplifying raw type names for display; unmatched
types pass through unchanged. -/
def simplify_col_type (t : String) : String :=
  let u := py_upper t
  if u = "TEXT" ∨ u = "VARCHAR" ∨ u = "STRING" ∨ u = "CHAR" then "varchar"
  else if u = "INT" ∨ u = "INTEGER" ∨ u = "BIGINT" ∨ u = "SMALLINT" then "int"
  else if u = "FLOAT" ∨ u = "DOUBLE" ∨ u = "DECIMAL" ∨ u = "NUMERIC" then "float"
  else if u = "TIMESTAMP" ∨ u = "DATETIME" ∨ u = "DATE" then "timestamp"
  else if u = "BOOLEAN" ∨ u = "BOOL" then "boolean"
  else t

/-- Python `str(value)` for display; containers are rendered as JSON
text here, a display-only approximation no claim depends on. -/
def py_str_display : Json → String
  | .str s => s
  | .bool true => "True"
  | .bool false => "False"
  | .null => "None"
  | v => String.mk (emit v)

/-- The sample display value: `str(value)` or `NULL` for null. -/
def display_value_of (v : Json) : String :=
  match v with
  | .null => "NULL"
  | v => py_str_display v

/-- Truncation of long display values to 97 characters plus an ellipsis
marker. -/
def truncate_display (s : String) : String :=
  if 100 < s.data.length then String.mk (s.data.take 97 ++ ['.', '.', '.']) else s

/-- One produced column entity. -/
structure AmundsenColumn where
  name : String
  description : String
  col_type : String
  sort_order : Nat
  stat_val : String

/-- One column built from a record field. -/
def mk_column (schema_info : List SchemaCol) (fname : String) (fval : Json)
    (sort_order : Nat) : AmundsenColumn :=
  { name := fname
    description := py_title (String.mk (mapReplaceChar '_' ' ' fname.data))
    col_type := simplify_col_type (schema_map_get schema_info fname "varchar")
    sort_order := sort_order
    stat_val := truncate_display (display_value_of fval) }

/-- The field loop of `_build_columns_from_record`: skip fields whose
name starts with the reserved internal prefix, otherwise emit a column
and advance the running sort order. -/
def build_cols_go (schema_info : List SchemaCol) :
    List (String × Json) → Nat → List AmundsenColumn
  | [], _ => []
  | (fname, fval) :: rest, i =>
    if "_internal_".data.isPrefixOf fname.data then build_cols_go schema_info rest i
    else mk_column schema_info fname fval i :: build_cols_go schema_info rest (i + 1)

/-- Embedding of `_build_columns_from_record`. -/
def build_columns_from_record (record : List (String × Json))
    (schema_info : List SchemaCol) : List AmundsenColumn :=
  build_cols_go schema_info record 0

/-- Embedding of `_infer_type` (lines 370-379): defined in the class but
never called; it has no timestamp branch.  Python float values are
outside the integer-number model. -/
def infer_type : Json → String
  | .bool _ => "boolean"
  | .num _ => "int"
  | _ => "varchar"

/-- Embedding of the module-level `_infer_column_type`
(lines 2245-2270), the runtime inference the claim describes: booleans,
integers, ISO-8601-looking strings, and a varchar fallback.  It is not
reachable from `_build_columns_from_record`. -/
def infer_column_type : Json → String
  | .null => "varchar"
  | .bool _ => "boolean"
  | .num _ => "int"
  | .str s =>
    if s.data.contains 'T' && (s.data.contains '-' || s.data.contains ':') then "timestamp"
    else "varchar"
  | _ => "varchar"

/-- C6: the claim says a field absent from the schema-discovery map gets
its column type inferred from the runtime value; the active builder
instead hard-defaults such fields to `varchar`.  At the record with the
single boolean field `active` and an empty schema map, the built column
type is `varchar`, while both in-file inference helpers (the uncalled
`_infer_type` and the enhanced `_infer_column_type` that the file's own
integration instructions say should be wired in) return `boolean`. -/
theorem C6_runtime_inference_not_wired :
    (build_columns_from_record [("active", Json.bool true)] []).map
        (fun c => c.col_type) = ["varchar"] ∧
    infer_column_type (Json.bool true) = "boolean" ∧
    infer_type (Json.bool true) = "boolean" ∧
    infer_column_type (Json.str "2024-01-01T00:00:00") = "timestamp" :=
  ⟨rfl, rfl, rfl, rfl⟩

/-- The column loop emits, for any starting index, the non-internal
fields in order with consecutive sort orders. -/
theorem build_cols_go_spec (si : List SchemaCol) (record : List (String × Json)) :
    ∀ i : Nat,
      (build_cols_go si record i).map (fun c => c.name) =
        (record.filter (fun kv => !("_internal_".data.isPrefixOf kv.1.data))).map
          (fun kv => kv.1) ∧
      (build_cols_go si record i).map (fun c => c.sort_order) =
        List.range' i
          (record.filter (fun kv => !("_internal_".data.isPrefixOf kv.1.data))).length := by
  induction record with
  | nil => intro i; simp [build_cols_go]
  | cons kv rest ih =>
    intro i
    rcases kv with ⟨fname, fval⟩
    by_cases hk : "_internal_".data.isPrefixOf fname.data = true
    · have h1 := ih i
      simp [build_cols_go, hk, List.filter_cons, h1.1, h1.2]
    · have hk2 : "_internal_".data.isPrefixOf fname.data = false := by
        simp only [Bool.not_eq_true] at hk
        exact hk
      have h1 := ih (i + 1)
      simp [build_cols_go, hk2, List.filter_cons, h1.1, h1.2, mk_column, List.range'_succ]

/-- C7: building columns from a record produces one column per field
whose name does not start with the reserved internal prefix, in field
iteration order, and the sort orders are exactly the dense sequence
0..k-1, where k is the number of non-internal fields. -/
theorem C7_column_density (record : List (String × Json)) (schema_info : List SchemaCol) :
    (build_columns_from_record record schema_info).map (fun c => c.name) =
      (record.filter (fun kv => !("_internal_".data.isPrefixOf kv.1.data))).map
        (fun kv => kv.1) ∧
    (build_columns_from_record record schema_info).map (fun c => c.sort_order) =
      List.range
        (record.filter (fun kv => !("_internal_".data.isPrefixOf kv.1.data))).length := by
  have h := build_cols_go_spec schema_info record 0
  exact ⟨h.1, by rw [List.range_eq_range']; exact h.2⟩

/-
  Entity mapper, owners: `_parse_owners_from_record` (lines 452-508).
-/

/-- Python truthiness on JSON values. -/
def py_falsy : Json → Bool
  | .null => true
  | .str s => s == ""
  | .num n => n == 0
  | .bool b => !b
  | .arr l => l.isEmpty
  | .obj l => l.isEmpty

/-- An owner entity. -/
structure Owner where
  display_name : String
  email : String
  user_id : String
deriving DecidableEq

/-- The prioritized owner-candidate field names. -/
def owner_fields : List String :=
  ["created_by", "owner", "owners", "author", "ownership_details", "created_user", "user"]

/-- The deterministic synthetic email: lowered name, spaces to dots,
at company dot com. -/
def synth_email (name : String) : String :=
  String.mk (mapReplaceChar ' ' '.' (py_lower name).data) ++ "@company.com"

/-- An owner entry synthesized from a name. -/
def mk_owner (name : String) : Owner :=
  { display_name := name, email := synth_email name, user_id := name }

/-- The comma branch: strip each part, keep nonempty parts not already
seen, appending the owner and recording the name. -/
def add_comma_owners : List String → List Owner × List String → List Owner × List String
  | [], st => st
  | part :: rest, st =>
    let t := py_strip part
    if t ≠ "" ∧ t ∉ st.2 then
      add_comma_owners rest (st.1 ++ [mk_owner t], st.2 ++ [t])
    else add_comma_owners rest st

/-- One candidate field.  Missing and falsy values are skipped.  Every
truthy value then reaches the membership test on the Python set of seen
names: a string already seen is skipped, an unseen string is comma-split
or taken whole as one owner, and a truthy number or boolean hashes fine,
fails the test, and matches neither isinstance branch, contributing
nothing.  A truthy list or dict is unhashable, so that membership test
raises `TypeError`, and no handler in the function catches it: that
raise is the `none` result. -/
def consume_owner_field (record : List (String × Json)) (st : List Owner × List String)
    (f : String) : Option (List Owner × List String) :=
  match dictFind record f with
  | none => some st
  | some v =>
    if py_falsy v then some st
    else
      match v with
      | .str s =>
        if s ∈ st.2 then some st
        else if s.data.contains ',' then some (add_comma_owners (py_split_str ',' s) st)
        else some (st.1 ++ [mk_owner s], st.2 ++ [s])
      | .arr _ => none
      | .obj _ => none
      | _ => some st

/-- The accumulation over the candidate fields in priority order; a
raise at any field propagates (no later field runs). -/
def accum_owners_go (record : List (String × Json)) :
    List String → List Owner × List String → Option (List Owner × List String)
  | [], st => some st
  | f :: rest, st =>
    match consume_owner_field record st f with
    | none => none
    | some st2 => accum_owners_go record rest st2

/-- The accumulation over all candidate fields from the empty state. -/
def accum_owners (record : List (String × Json)) : Option (List Owner × List String) :=
  accum_owners_go record owner_fields ([], [])

/-- The synthetic fallback owner. -/
def system_owner : Owner :=
  { display_name := "system", email := "system@company.com", user_id := "system" }

/-- Embedding of `_parse_owners_from_record`: the accumulated owners, or
the single system owner when none were found; `none` when the
accumulation raised. -/
def parse_owners_from_record (record : List (String × Json)) : Option (List Owner) :=
  match accum_owners record with
  | none => none
  | some st => some (if st.1.isEmpty then [system_owner] else st.1)

/-- Appending one unseen owner preserves the tracking invariant. -/
theorem owner_step_inv {st : List Owner × List String} {t : String}
    (hinv : (∀ o ∈ st.1, o.display_name ∈ st.2) ∧ (st.1.map (fun o => o.display_name)).Nodup)
    (ht : t ∉ st.2) :
    (∀ o ∈ st.1 ++ [mk_owner t], o.display_name ∈ st.2 ++ [t]) ∧
      (((st.1 ++ [mk_owner t]).map (fun o => o.display_name)).Nodup) := by
  constructor
  · intro o ho
    rw [List.mem_append] at ho
    rcases ho with ho | ho
    · exact List.mem_append.mpr (Or.inl (hinv.1 o ho))
    · rw [List.mem_singleton] at ho
      subst ho
      exact List.mem_append.mpr (Or.inr (List.mem_singleton.mpr rfl))
  · rw [List.map_append]
    rw [List.nodup_append]
    refine ⟨hinv.2, by simp [mk_owner], ?_⟩
    intro x hx hx2
    simp [mk_owner] at hx2
    subst hx2
    obtain ⟨o, ho, hod⟩ := List.mem_map.mp hx
    exact ht (hod ▸ hinv.1 o ho)

/-- The comma-branch fold preserves the tracking invariant. -/
theorem add_comma_owners_inv :
    ∀ (parts : List String) (st : List Owner × List String),
      (∀ o ∈ st.1, o.display_name ∈ st.2) ∧ (st.1.map (fun o => o.display_name)).Nodup →
      (∀ o ∈ (add_comma_owners parts st).1, o.display_name ∈ (add_comma_owners parts st).2) ∧
        ((add_comma_owners parts st).1.map (fun o => o.display_name)).Nodup := by
  intro parts
  induction parts with
  | nil => intro st h; exact h
  | cons part rest ih =>
    intro st h
    rw [add_comma_owners]
    by_cases hc : py_strip part ≠ "" ∧ py_strip part ∉ st.2
    · rw [if_pos hc]
      exact ih _ (owner_step_inv h hc.2)
    · rw [if_neg hc]
      exact ih st h

/-- One candidate field preserves the tracking invariant when it does
not raise. -/
theorem consume_owner_field_inv (record : List (String × Json))
    (st st2 : List Owner × List String) (f : String)
    (hstep : consume_owner_field record st f = some st2)
    (h : (∀ o ∈ st.1, o.display_name ∈ st.2) ∧ (st.1.map (fun o => o.display_name)).Nodup) :
    (∀ o ∈ st2.1, o.display_name ∈ st2.2) ∧
      (st2.1.map (fun o => o.display_name)).Nodup := by
  unfold consume_owner_field at hstep
  rcases hdf : dictFind record f with _ | v
  · simp only [hdf, Option.some.injEq] at hstep
    subst hstep
    exact h
  · simp only [hdf] at hstep
    by_cases hf : py_falsy v = true
    · rw [if_pos hf] at hstep
      injection hstep with h2
      subst h2
      exact h
    · rw [if_neg hf] at hstep
      match v with
      | .null => injection hstep with h2; subst h2; exact h
      | .bool b => injection hstep with h2; subst h2; exact h
      | .num n => injection hstep with h2; subst h2; exact h
      | .arr l => exact absurd hstep (by simp)
      | .obj l => exact absurd hstep (by simp)
      | .str s =>
        by_cases hs : s ∈ st.2
        · simp only [if_pos hs, Option.some.injEq] at hstep
          subst hstep
          exact h
        · simp only [if_neg hs] at hstep
          by_cases hcomma : s.data.contains ',' = true
          · simp only [if_pos hcomma, Option.some.injEq] at hstep
            subst hstep
            exact add_comma_owners_inv _ st h
          · simp only [if_neg hcomma, Option.some.injEq] at hstep
            subst hstep
            exact owner_step_inv h hs

/-- The accumulation loop preserves the tracking invariant when it does
not raise. -/
theorem accum_owners_go_inv (record : List (String × Json)) :
    ∀ (fs : List String) (st st2 : List Owner × List String),
      accum_owners_go record fs st = some st2 →
      (∀ o ∈ st.1, o.display_name ∈ st.2) ∧ (st.1.map (fun o => o.display_name)).Nodup →
      (∀ o ∈ st2.1, o.display_name ∈ st2.2) ∧ (st2.1.map (fun o => o.display_name)).Nodup := by
  intro fs
  induction fs with
  | nil =>
    intro st st2 hstep h
    simp only [accum_owners_go, Option.some.injEq] at hstep
    subst hstep
    exact h
  | cons f rest ih =>
    intro st st2 hstep h
    simp only [accum_owners_go] at hstep
    rcases hc : consume_owner_field record st f with _ | stm
    · rw [hc] at hstep
      exact absurd hstep (by simp)
    · simp only [hc] at hstep
      exact ih _ _ hstep (consume_owner_field_inv record st stm f hc h)

/-- A completed whole accumulation satisfies the tracking invariant. -/
theorem accum_owners_inv (record : List (String × Json))
    (st : List Owner × List String) (h : accum_owners record = some st) :
    (∀ o ∈ st.1, o.display_name ∈ st.2) ∧ (st.1.map (fun o => o.display_name)).Nodup := by
  unfold accum_owners at h
  exact accum_owners_go_inv record owner_fields ([], []) st h ⟨by simp, by simp⟩

/-- C8, counterexample: a record whose `owner` field holds a truthy
dict.  The value is not falsy, so it reaches the membership test on the
Python set of already-seen names (line 476); a dict is unhashable, that
test raises `TypeError`, and no handler in `_parse_owners_from_record`
catches it, so the function never returns a list for this record —
refuting the claim that it always returns a nonempty list. -/
theorem C8_counterexample :
    parse_owners_from_record [("owner", Json.obj [("name", Json.str "alice")])] = none := rfl

/-- C8 (amended): whenever `_parse_owners_from_record` returns — that
is, no owner candidate field of the record holds a truthy list or dict,
which would make the set-membership test at line 476 raise `TypeError`
— the returned list is nonempty, its display names are pairwise
distinct (deduplication by the exact name string already seen), and
when no candidate field yielded any owner it is exactly the single
synthetic system owner. -/
theorem C8_owner_non_empty_dedup (record : List (String × Json))
    (os : List Owner) (h : parse_owners_from_record record = some os) :
    os ≠ [] ∧ (os.map (fun o => o.display_name)).Nodup ∧
      (∀ st, accum_owners record = some st → st.1 = [] → os = [system_owner]) := by
  unfold parse_owners_from_record at h
  rcases ha : accum_owners record with _ | st
  · rw [ha] at h
    exact absurd h (by simp)
  · simp only [ha, Option.some.injEq] at h
    subst h
    by_cases he : st.1.isEmpty
    · simp only [if_pos he]
      refine ⟨by simp, by simp, ?_⟩
      intro st2 _ _
      trivial
    · simp only [if_neg he]
      refine ⟨?_, (accum_owners_inv record st ha).2, ?_⟩
      · intro hne
        exact he (List.isEmpty_iff.mpr hne)
      · intro st2 ha2 h0
        injection ha2 with h3
        subst h3
        exact absurd (List.isEmpty_iff.mpr h0) he

/-- Witness for C8 at the empty record, which has no candidate fields:
parsing completes with the sole system owner, which is nonempty. -/
theorem C8_owner_non_empty_dedup_witness :
    parse_owners_from_record [] = some [system_owner] ∧
      ([system_owner] : List Owner) ≠ [] :=
  ⟨rfl, (C8_owner_non_empty_dedup [] [system_owner] rfl).1⟩

/-
  Lineage: `get_lineage` (lines 1156-1234).  The fetched records are a
  parameter (the backend reply after normalization); each direction is
  parsed inside its own exception scope.
-/

/-- One lineage edge in the produced format. -/
structure LineageEdge where
  key : Json
  level : Json
  source : String
  badges : List Json

/-- Conversion of one lineage item: dict items contribute their `key`
and `level` fields (level defaulting to 1), bare items become the key
itself with level 1. -/
def lineage_item_convert (item : Json) : LineageEdge :=
  match item with
  | .obj kvs =>
    { key := dictGetD kvs "key" (.str ""), level := dictGetD kvs "level" (.num 1),
      source := "optimusdb", badges := [] }
  | v => { key := v, level := .num 1, source := "optimusdb", badges := [] }

/-- One direction of lineage parsing: skip falsy field values, JSON-load
string values and convert each element of the loaded list; a load
failure, a non-iterable loaded value, or a non-string field value ends
in the caught-exception empty list.  A loaded dict iterates its keys and
a loaded string iterates its characters, as Python iteration does. -/
def parse_lineage_field (v : Json) : List LineageEdge :=
  if py_falsy v then []
  else
    match v with
    | .str s =>
      match loads s with
      | some (.arr items) => items.map lineage_item_convert
      | some (.obj kvs) => kvs.map (fun kv => lineage_item_convert (.str kv.1))
      | some (.str t) => t.data.map (fun c => lineage_item_convert (.str (String.mk [c])))
      | some _ => []
      | none => []
    | _ => []

/-- The lineage reply shape. -/
structure LineageResult where
  upstream_entities : List LineageEdge
  downstream_entities : List LineageEdge
  depth : Nat
  direction : String
  key : String

/-- Embedding of `get_lineage` over the fetched records: no records give
the empty result; a non-dict first record is the caught attribute error;
otherwise each requested direction parses its own field independently. -/
def get_lineage (records : List Json) (id direction : String) (depth : Nat) : LineageResult :=
  match records with
  | [] => ⟨[], [], depth, direction, id⟩
  | r :: _ =>
    match r with
    | .obj kvs =>
      ⟨if direction = "upstream" ∨ direction = "both" then
          parse_lineage_field (dictGetD kvs "lineage_upstream" (.str ""))
        else [],
        if direction = "downstream" ∨ direction = "both" then
          parse_lineage_field (dictGetD kvs "lineage_downstream" (.str ""))
        else [],
        depth, direction, id⟩
    | _ => ⟨[], [], depth, direction, id⟩

/-- A fetched record carrying both lineage fields. -/
def mk_lineage_record (su sd : String) : Json :=
  Json.obj [("lineage_upstream", .str su), ("lineage_downstream", .str sd)]

/-- A field that fails to load parses to the empty direction. -/
theorem parse_lineage_field_of_bad {bad : String} (hbad : loads bad = none) :
    parse_lineage_field (.str bad) = [] := by
  unfold parse_lineage_field
  by_cases hb : py_falsy (.str bad) = true
  · rw [if_pos hb]
  · rw [if_neg hb]
    simp only [hbad]

/-- A field loading a JSON array parses to the converted items. -/
theorem parse_lineage_field_of_arr {good : String} {items : List Json}
    (hgood : loads good = some (Json.arr items)) :
    parse_lineage_field (.str good) = items.map lineage_item_convert := by
  have hgne : good ≠ "" := by
    intro he
    rw [he] at hgood
    exact Option.noConfusion ((rfl : loads "" = none) ▸ hgood)
  unfold parse_lineage_field
  rw [if_neg (by simp [py_falsy, hgne])]
  simp only [hgood]

/-- C9: with direction `both`, a JSON parse failure on one lineage field
yields the empty list for that direction while the other direction is
still parsed from its own field, in either arrangement: the directions
fail independently and neither aborts the other. -/
theorem C9_lineage_directions_independent (bad good : String) (items : List Json)
    (id : String) (depth : Nat)
    (hbad : loads bad = none) (hgood : loads good = some (Json.arr items)) :
    ((get_lineage [mk_lineage_record bad good] id "both" depth).upstream_entities = [] ∧
      (get_lineage [mk_lineage_record bad good] id "both" depth).downstream_entities =
        items.map lineage_item_convert) ∧
    ((get_lineage [mk_lineage_record good bad] id "both" depth).upstream_entities =
        items.map lineage_item_convert ∧
      (get_lineage [mk_lineage_record good bad] id "both" depth).downstream_entities = []) := by
  have e1 : (get_lineage [mk_lineage_record bad good] id "both" depth).upstream_entities =
      parse_lineage_field (.str bad) := rfl
  have e2 : (get_lineage [mk_lineage_record bad good] id "both" depth).downstream_entities =
      parse_lineage_field (.str good) := rfl
  have e3 : (get_lineage [mk_lineage_record good bad] id "both" depth).upstream_entities =
      parse_lineage_field (.str good) := rfl
  have e4 : (get_lineage [mk_lineage_record good bad] id "both" depth).downstream_entities =
      parse_lineage_field (.str bad) := rfl
  rw [e1, e2, e3, e4, parse_lineage_field_of_bad hbad, parse_lineage_field_of_arr hgood]
  exact ⟨⟨rfl, rfl⟩, ⟨rfl, rfl⟩⟩

/-- Witness for C9 at a malformed and a well-formed lineage string. -/
theorem C9_lineage_directions_independent_witness :
    ((get_lineage [mk_lineage_record "oops" "[\"a\"]"] "k" "both" 1).upstream_entities = [] ∧
      (get_lineage [mk_lineage_record "oops" "[\"a\"]"] "k" "both" 1).downstream_entities =
        [Json.str "a"].map lineage_item_convert) ∧
    ((get_lineage [mk_lineage_record "[\"a\"]" "oops"] "k" "both" 1).upstream_entities =
        [Json.str "a"].map lineage_item_convert ∧
      (get_lineage [mk_lineage_record "[\"a\"]" "oops"] "k" "both" 1).downstream_entities = []) :=
  C9_lineage_directions_independent "oops" "[\"a\"]" [Json.str "a"] "k" 1 rfl rfl

/-
  Users: `get_user` (lines 1271-1341).  The reply is a parameter:
  `none` is the caught request/parse exception, `some []` the empty
  record set, and a non-dict first record the caught attribute error.
-/

/-- The user entity; field values keep their dynamic JSON type. -/
structure AmundsenUser where
  email : Json
  user_id : Json
  display_name : Json
  profile_url : Json
  is_active : Json
  github_username : Json
  team_name : Json
  slack_id : Json
  employee_type : Json

/-- The synthesized default user for an id. -/
def default_user (id : String) : AmundsenUser :=
  { email := .str (id ++ "@company.com"), user_id := .str id, display_name := .str id,
    profile_url := .str "", is_active := .bool true, github_username := .str "",
    team_name := .str "", slack_id := .str "", employee_type := .str "" }

/-- Embedding of `get_user`: defaults on failure or no records,
otherwise the first record's fields with per-field defaults. -/
def get_user (id : String) (resp : Option (List Json)) : AmundsenUser :=
  match resp with
  | none => default_user id
  | some [] => default_user id
  | some (r :: _) =>
    match r with
    | .obj kvs =>
      { email := dictGetD kvs "email" (.str (id ++ "@company.com"))
        user_id := dictGetD kvs "user_id" (.str id)
        display_name := dictGetD kvs "display_name" (.str id)
        profile_url := dictGetD kvs "profile_url" (.str "")
        is_active := dictGetD kvs "is_active" (.bool true)
        github_username := dictGetD kvs "github_username" (.str "")
        team_name := dictGetD kvs "team_name" (.str "")
        slack_id := dictGetD kvs "slack_id" (.str "")
        employee_type := dictGetD kvs "employee_type" (.str "") }
    | _ => default_user id

/-- C10: `get_user` is total (never a missing result in the model); when
the backend reply carries no record, or the request fails, the result is
the synthesized default user, whose user id and display name equal the
requested id, whose email is the id at company dot com, and whose
active flag is true. -/
theorem C10_get_user_default (id : String) (resp : Option (List Json))
    (h : resp = none ∨ resp = some []) :
    get_user id resp = default_user id ∧
    (default_user id).user_id = Json.str id ∧
    (default_user id).display_name = Json.str id ∧
    (default_user id).email = Json.str (id ++ "@company.com") ∧
    (default_user id).is_active = Json.bool true := by
  rcases h with h | h <;> subst h <;> exact ⟨rfl, rfl, rfl, rfl, rfl⟩

/-- Witness for C10 at a concrete id and a failed request. -/
theorem C10_get_user_default_witness :
    get_user "jdoe" none = default_user "jdoe" ∧
    (default_user "jdoe").user_id = Json.str "jdoe" ∧
    (default_user "jdoe").display_name = Json.str "jdoe" ∧
    (default_user "jdoe").email = Json.str "jdoe@company.com" ∧
    (default_user "jdoe").is_active = Json.bool true :=
  C10_get_user_default "jdoe" none (Or.inl rfl)
